import Mathlib

/-!
Verification development for the cryptocurrency mining income calculator
(`mining-taxes.js` and its two sibling rewrites).

The JavaScript program is shallowly embedded: JavaScript numbers are
idealised as rationals, with an explicit `nan` for `NaN` and `undefined` for
`undefined` (the value a promise resolves to after `.catch(console.log)`
fires, and the value of a never-assigned object field).  Promises are
embedded by their resolved value; a `rejected` outcome marks a promise
that rejects.  Each network fetcher is embedded with an explicit fuel
argument (the JavaScript is self-recursive with no intrinsic bound), a
`source` function standing for the HTTP endpoint (request key ↦ decoded
JSON response), and an explicit trace of the requests it issues.
-/

set_option autoImplicit false

namespace MiningTaxes

/-- JavaScript numbers as used by this program: a rational, `NaN`, or
`undefined` (which behaves as `NaN` in arithmetic). -/
inductive JSNum where
  | num (q : ℚ)
  | nan
  | undefined
  deriving DecidableEq, Repr

/-- JavaScript `+` on these values: `undefined` and `NaN` both poison a sum. -/
def JSNum.add : JSNum → JSNum → JSNum
  | .num a, .num b => .num (a + b)
  | _, _ => .nan

/-- JavaScript `*` on these values: `undefined` and `NaN` both poison a product. -/
def JSNum.mul : JSNum → JSNum → JSNum
  | .num a, .num b => .num (a * b)
  | _, _ => .nan

/-- Left fold of JavaScript `+` starting from `0`, as performed by the
`forEach` accumulation in `_buildResult`. -/
def jsSum (l : List JSNum) : JSNum := l.foldl JSNum.add (.num 0)

/-- Explorer link pair (class `Explorer`). -/
structure Explorer where
  addressExplorer : String
  txExplorer : String
  deriving DecidableEq, Repr

/-- Static per-network descriptor (the data held by class `Cryptocurrency`). -/
structure Coin where
  name : String
  code : String
  factor : ℚ
  explorer : Explorer
  multiAddr : Bool
  deriving DecidableEq, Repr

def BITCOIN_EXPLORER : Explorer :=
  { addressExplorer := "https://blockchain.info/address/"
    txExplorer := "https://blockchain.info/tx/" }

def LITECOIN_EXPLORER : Explorer :=
  { addressExplorer := "https://live.blockcypher.com/ltc/address/"
    txExplorer := "https://live.blockcypher.com/ltc/tx/" }

def ETHEREUM_EXPLORER : Explorer :=
  { addressExplorer := "https://etherscan.io/address/"
    txExplorer := "https://etherscan.io/tx/" }

/-- The `Bitcoin` coin instance (`new Bitcoin()`); `1e8` is exactly `100000000`. -/
def Bitcoin : Coin :=
  { name := "Bitcoin", code := "BTC", factor := 100000000
    explorer := BITCOIN_EXPLORER, multiAddr := true }

/-- The `Litecoin` coin instance (`new Litecoin()`). -/
def Litecoin : Coin :=
  { name := "Litecoin", code := "LTC", factor := 100000000
    explorer := LITECOIN_EXPLORER, multiAddr := false }

/-- The `Ethereum` coin instance (`new Ethereum()`); `1e18` is exact. -/
def Ethereum : Coin :=
  { name := "Ethereum", code := "ETH", factor := 1000000000000000000
    explorer := ETHEREUM_EXPLORER, multiAddr := false }

/-- Two-digit zero padding, the `%02d` of `sprintf`. -/
def pad2 (n : Int) : String :=
  if n < 10 then "0" ++ toString n else toString n

/-- Proleptic-Gregorian civil date of a day count since 1970-01-01
(what `new Date(ms)` + `getUTCFullYear/Month/Date` computes). -/
def civilFromDays (z0 : Int) : Int × Int × Int :=
  let z := z0 + 719468
  let era := z.ediv 146097
  let doe := z.emod 146097
  let yoe := (doe - doe.ediv 1460 + doe.ediv 36524 - doe.ediv 146096).ediv 365
  let doy := doe - (365 * yoe + yoe.ediv 4 - yoe.ediv 100)
  let mp := (5 * doy + 2).ediv 153
  let d := doy - (153 * mp + 2).ediv 5 + 1
  let m := mp + (if mp < 10 then 3 else -9)
  (yoe + era * 400 + (if m ≤ 2 then 1 else 0), m, d)

/-- Embeds `getDateFromSeconds`: UTC calendar date of a Unix timestamp,
formatted `"%d-%02d-%02d"`. -/
def getDateFromSeconds (seconds : Int) : String :=
  let c := civilFromDays ((seconds * 1000).ediv 86400000)
  toString c.1 ++ "-" ++ pad2 c.2.1 ++ "-" ++ pad2 c.2.2

/-- The `Transaction` object.  The constructor sets the first six fields;
`price`, `amount` and `valueWhenReceived` stay `undefined` until
`_addPriceData` runs, and `value` stays `undefined` until `_buildResult`
assigns it. -/
structure Transaction where
  coin : Coin
  address : String
  realAmount : ℚ
  timestamp : String
  date : String
  hash : String
  price : JSNum := .undefined
  amount : JSNum := .undefined
  valueWhenReceived : JSNum := .undefined
  value : JSNum := .undefined
  deriving DecidableEq, Repr

/-- Embeds `Transaction._addPriceData`: stores the price, converts the raw
amount by the coin factor and computes value-when-received.  The incoming
`price` is `undefined` when the Coinbase lookup failed (its
`.catch(console.log)` resolves the promise with `undefined`).  The coin
factors occurring in the program are nonzero, so plain rational division
embeds the JavaScript division faithfully. -/
def Transaction.addPriceData (t : Transaction) (price : JSNum) : Transaction :=
  let amount : JSNum := .num (t.realAmount / t.coin.factor)
  { t with price := price, amount := amount, valueWhenReceived := price.mul amount }

/-- Resolved value of a price promise, after `getCoinbasePrice`'s own
`.catch(console.log)`: a number on success, `undefined` on any fetch or
decode failure (`PriceUnavailable`). -/
def jsOfPrice : Option ℚ → JSNum
  | some p => .num p
  | none => .undefined

/-- A price oracle: arguments are the optional date, the base currency code
and the quote currency code of `getCoinbasePrice`; `none` models
`PriceUnavailable` (the lookup resolving to `undefined`). -/
def PriceOracle : Type := Option String → String → String → Option ℚ

/-- Embeds `Transaction.getPrice`: looks up the historical price for the
transaction's date and coin code, then runs `_addPriceData` on whatever
the lookup resolved to (`undefined` included). -/
def Transaction.getPrice (t : Transaction) (oracle : PriceOracle) (currency : String) :
    Transaction :=
  t.addPriceData (jsOfPrice (oracle (some t.date) t.coin.code currency))

/-- The record built by `Cryptocurrency._buildResult`. -/
structure TaxResult where
  coinName : String
  coinCode : String
  coinPrice : JSNum
  currency : String
  amount : JSNum
  value : JSNum
  valueWhenReceived : JSNum
  explorer : Explorer
  txns : List Transaction
  deriving DecidableEq, Repr

/-- The `txns.forEach` loop of `_buildResult`: accumulates the three totals
and assigns `txn.value = result.coin.price * txn.amount` on each
transaction of the result's list. -/
def buildResultLoop (coinPrice : JSNum) : List Transaction → TaxResult → TaxResult
  | [], r => r
  | txn :: rest, r =>
    let txnValue := coinPrice.mul txn.amount
    buildResultLoop coinPrice rest
      { r with
        amount := r.amount.add txn.amount
        valueWhenReceived := r.valueWhenReceived.add txn.valueWhenReceived
        value := r.value.add txnValue
        txns := r.txns ++ [{ txn with value := txnValue }] }

/-- Embeds `Cryptocurrency._buildResult`: `coinPrice` is the value the
awaited current-price promise resolved to (`undefined` if that lookup failed). -/
def Coin.buildResult (c : Coin) (txns : List Transaction) (currency : String)
    (coinPrice : JSNum) : TaxResult :=
  buildResultLoop coinPrice txns
    { coinName := c.name, coinCode := c.code, coinPrice := coinPrice
      currency := currency, amount := .num 0, value := .num 0
      valueWhenReceived := .num 0, explorer := c.explorer, txns := [] }

/-- Outcome of a JavaScript promise: its resolved value, or a rejection. -/
inductive Promised (α : Type) where
  | resolved (a : α)
  | rejected
  deriving DecidableEq, Repr

/-- Resolved value of a promise outcome, if any. -/
def Promised.get? {α : Type} : Promised α → Option α
  | .resolved a => some a
  | .rejected => none

/-- Embeds `Cryptocurrency._getTaxableEvents` for one address group, given
the value its `_getTransactions(...)` call resolved to.  A `FetchFailure`
makes `_getTransactions` resolve to `undefined` (its `.catch(console.log)`),
hence `fetched = none`; then `txns.map` throws a `TypeError` and the whole
chain rejects — `_getTaxableEvents` itself has no `.catch`. -/
def Coin.getTaxableEvents (c : Coin) (oracle : PriceOracle)
    (fetched : Option (List Transaction)) (currency : String)
    (currentPrice : Option ℚ) : Promised TaxResult :=
  match fetched with
  | none => .rejected
  | some txns =>
    .resolved (c.buildResult (txns.map fun t => t.getPrice oracle currency)
      currency (jsOfPrice currentPrice))

/-- Embeds `Promise.all`: rejected as soon as any member is rejected,
otherwise resolved with the list of values. -/
def promiseAll {α : Type} : List (Promised α) → Promised (List α)
  | [] => .resolved []
  | .rejected :: _ => .rejected
  | .resolved a :: rest =>
    match promiseAll rest with
    | .resolved l => .resolved (a :: l)
    | .rejected => .rejected

/-- One configured address group of the top-level pipeline: its coin, the
value its transfer fetch resolved to (`none` = `FetchFailure`, i.e. the
fetch resolved to `undefined`), and the value the concurrently started
current-price lookup resolved to. -/
structure AddressGroup where
  coin : Coin
  fetched : Option (List Transaction)
  currentPrice : Option ℚ

/-- Embeds the top level `Promise.all(promises).then(printResults).catch(console.log)`:
the list handed to `printResults`, or `none` when `Promise.all` rejected and
the final `.catch` swallowed everything. -/
def run (oracle : PriceOracle) (currency : String) (groups : List AddressGroup) :
    Option (List TaxResult) :=
  match promiseAll (groups.map fun g =>
      g.coin.getTaxableEvents oracle g.fetched currency g.currentPrice) with
  | .resolved rs => some rs
  | .rejected => none

/-- Outcome of one fetcher run, after every level's `.catch(console.log)`:
either the transaction list, or `undefined` because some page threw a
transport/decode error.  `reqs` is the trace of requests issued, in order. -/
inductive FetchResult (ρ : Type) where
  | ok (reqs : List ρ) (txns : List Transaction)
  | errored (reqs : List ρ)
  deriving DecidableEq, Repr

/-- Requests issued, whether or not the fetch succeeded. -/
def FetchResult.requests {ρ : Type} : FetchResult ρ → List ρ
  | .ok reqs _ => reqs
  | .errored reqs => reqs

/-- Transactions produced (empty on the `undefined` outcome). -/
def FetchResult.txnsOf {ρ : Type} : FetchResult ρ → List Transaction
  | .ok _ txns => txns
  | .errored _ => []

/-- One entry of a blockchain.info transaction's `out` array (only the
field read). -/
structure BtcOut where
  addr : String
  deriving DecidableEq, Repr

/-- One entry of blockchain.info's `txs` array (only the fields read). -/
structure BtcTx where
  result : ℚ
  out : List BtcOut
  time : Int
  hash : String
  deriving DecidableEq, Repr

/-- One decoded blockchain.info multiaddr page.  `txs = none` embeds a
response object with no `txs` array, on which `json.txs.length` throws. -/
structure BtcPage where
  txs : Option (List BtcTx)
  n_tx : Int
  deriving DecidableEq, Repr

/-- The `new Transaction(this, address, realAmount, timestamp, date, hash)`
expression of `Bitcoin._getTransactions`, with `o` the first output. -/
def btcTxOf (c : Coin) (t : BtcTx) (o : BtcOut) : Transaction :=
  { coin := c, address := o.addr, realAmount := t.result
    timestamp := toString t.time, date := getDateFromSeconds t.time
    hash := t.hash }

/-- The `for` loop over `json.txs` in `Bitcoin._getTransactions`: keep an
entry iff its `result` is strictly positive, reading the receiving address
from `out[0].addr`.  `none` embeds the `TypeError` thrown by `out[0].addr`
when `out` is empty. -/
def btcPageLoop (c : Coin) : List BtcTx → List Transaction → Option (List Transaction)
  | [], data => some data
  | t :: rest, data =>
    if 0 < t.result then
      match t.out with
      | [] => none
      | o :: _ => btcPageLoop c rest (data ++ [btcTxOf c t o])
    else btcPageLoop c rest data

/-- Embeds `Bitcoin._getTransactions`.  A request is the pair of the
`active` parameter (`addresses.join('|')`) and the `offset` parameter.
Pagination recurses with `offset + json.txs.length` while
`json.wallet.n_tx > txProcessed`.  `none` = out of fuel (the JavaScript
recursion has no intrinsic depth bound). -/
def btcGetTransactions (src : String → Int → BtcPage) (c : Coin) :
    Nat → List String → List Transaction → Int → Option (FetchResult (String × Int))
  | 0, _, _, _ => none
  | fuel + 1, addresses, data, offset =>
    let active := String.intercalate "|" addresses
    let page := src active offset
    match page.txs with
    | none => some (.errored [(active, offset)])
    | some txs =>
      match btcPageLoop c txs data with
      | none => some (.errored [(active, offset)])
      | some data' =>
        let txProcessed := offset + (txs.length : Int)
        if txProcessed < page.n_tx then
          match btcGetTransactions src c fuel addresses data' txProcessed with
          | none => none
          | some (.ok reqs out) => some (.ok ((active, offset) :: reqs) out)
          | some (.errored reqs) => some (.errored ((active, offset) :: reqs))
        else
          some (.ok [(active, offset)] data')

/-- One entry of blockcypher's `txrefs` array (only the fields read). -/
structure LtcTxRef where
  spent : Bool
  value : ℚ
  confirmed : String
  tx_hash : String
  block_height : Int
  deriving DecidableEq, Repr

/-- One decoded blockcypher page.  `txrefs = none` embeds a response with
no `txrefs` array, on which `json.txrefs.length` throws; an absent
`hasMore` field is falsy, so `hasMore : Bool` suffices. -/
structure LtcPage where
  txrefs : Option (List LtcTxRef)
  hasMore : Bool
  deriving DecidableEq, Repr

/-- The `new Transaction(this, address, realAmount, timestamp, date, hash)`
expression of `Litecoin._getTransactions`: the queried address, the
reference's value, its `confirmed` timestamp whose first 10 characters
form the date, and its hash. -/
def ltcTxOf (c : Coin) (address : String) (r : LtcTxRef) : Transaction :=
  { coin := c, address := address, realAmount := r.value
    timestamp := r.confirmed, date := r.confirmed.take 10
    hash := r.tx_hash }

/-- The `for` loop over `json.txrefs` in `Litecoin._getTransactions`:
keeps entries with `spent === false` and tracks `lastBlock` through
every entry (kept or not); returns the grown list and the final
`lastBlock`. -/
def ltcPageLoop (c : Coin) (address : String) :
    List LtcTxRef → List Transaction → Int → List Transaction × Int
  | [], data, lastBlock => (data, lastBlock)
  | r :: rest, data, _lastBlock =>
    let data := if r.spent = false then data ++ [ltcTxOf c address r] else data
    ltcPageLoop c address rest data r.block_height

/-- Embeds `Litecoin._getTransactions`.  A request is the optional
`before` cursor: present iff the current `offset` is positive.  When
`json.hasMore` is truthy it recurses with `offset := lastBlock`. -/
def ltcGetTransactions (src : Option Int → LtcPage) (c : Coin) (address : String) :
    Nat → List Transaction → Int → Option (FetchResult (Option Int))
  | 0, _, _ => none
  | fuel + 1, data, offset =>
    let req : Option Int := if 0 < offset then some offset else none
    let page := src req
    match page.txrefs with
    | none => some (.errored [req])
    | some refs =>
      let looped := ltcPageLoop c address refs data (-1)
      if page.hasMore then
        match ltcGetTransactions src c address fuel looped.1 looped.2 with
        | none => none
        | some (.ok reqs out) => some (.ok (req :: reqs) out)
        | some (.errored reqs) => some (.errored (req :: reqs))
      else
        some (.ok [req] looped.1)

/-- One entry of etherscan's `result` array (only the fields read);
`toAddr` embeds the JSON field named `to`, a reserved word here. -/
structure EthTx where
  toAddr : String
  value : ℚ
  timeStamp : Int
  hash : String
  deriving DecidableEq, Repr

/-- One decoded etherscan response.  `result = none` embeds a response with
no `result` array, on which `json.result.length` throws. -/
structure EthResp where
  result : Option (List EthTx)
  deriving DecidableEq, Repr

/-- The `new Transaction(this, address, realAmount, timestamp, date, hash)`
expression of `Ethereum._getTransactions`. -/
def ethTxOf (c : Coin) (address : String) (e : EthTx) : Transaction :=
  { coin := c, address := address, realAmount := e.value
    timestamp := toString e.timeStamp, date := getDateFromSeconds e.timeStamp
    hash := e.hash }

/-- The `for` loop over `json.result` in `Ethereum._getTransactions`:
keeps entries whose `to` equals the queried address. -/
def ethPageLoop (c : Coin) (address : String) :
    List EthTx → List Transaction → List Transaction
  | [], data => data
  | e :: rest, data =>
    if e.toAddr = address then ethPageLoop c address rest (data ++ [ethTxOf c address e])
    else ethPageLoop c address rest data

/-- Embeds `Ethereum._getTransactions`: a single request (here `Unit`),
no pagination. -/
def ethGetTransactions (src : EthResp) (c : Coin) (address : String) :
    FetchResult Unit :=
  match src.result with
  | none => .errored [()]
  | some entries => .ok [()] (ethPageLoop c address entries [])

/-!
Embedding of `getBitcoinTransactions` from the function-table rewrite.
Its signature is `(coin, addresses, data, offset)`, but its self-recursive
call passes only `(addresses, data, txProcessed)`, so every argument
shifts one slot to the left and `offset` falls back to its default `0`.
The slots are therefore dynamically typed and are embedded as `JsVal`.
-/

mutual

/-- A JavaScript value that can occupy one of the shifted argument slots:
the coin descriptor, an address array, the transaction accumulator array,
or a number. -/
inductive JsVal where
  | coinV (c : Coin)
  | strListV (l : List String)
  | txListV (l : List V1Tx)
  | numV (n : Int)

/-- A `Transaction` as constructed by the rewrite: its `coin` slot holds
whatever value the shifted `coin` parameter carried. -/
inductive V1Tx where
  | mk (coin : JsVal) (address : String) (realAmount : ℚ) (timestamp : String)
      (date : String) (hash : String)

end

/-- JavaScript `x.join('|')`: defined on arrays (an object element prints
as `"[object Object]"`), a `TypeError` (`none`) on anything else. -/
def jsJoin : JsVal → Option String
  | .strListV l => some (String.intercalate "|" l)
  | .txListV l => some (String.intercalate "|" (l.map fun _ => "[object Object]"))
  | _ => none

/-- JavaScript `x.push(tx)`: appends when `x` is the transaction array,
a `TypeError` (`none`) otherwise. -/
def jsPush : JsVal → V1Tx → Option JsVal
  | .txListV l, t => some (.txListV (l ++ [t]))
  | _, _ => none

/-- The page loop of the rewrite's `getBitcoinTransactions`: like
`btcPageLoop` but pushing into a dynamically typed accumulator, with the
dynamically typed `coin` slot stored on each created transaction. -/
def v1PageLoop (coin : JsVal) : List BtcTx → JsVal → Option JsVal
  | [], data => some data
  | t :: rest, data =>
    if 0 < t.result then
      match t.out with
      | [] => none
      | o :: _ =>
        match jsPush data (.mk coin o.addr t.result (toString t.time)
            (getDateFromSeconds t.time) t.hash) with
        | none => none
        | some data' => v1PageLoop coin rest data'
    else v1PageLoop coin rest data

/-- Outcome of the rewrite's fetcher: resolved value (of whatever dynamic
type), resolved `undefined` after a caught error, or a synchronous throw
(before any fetch at this level) that the caller's `.catch` turns into
`undefined`. -/
inductive V1Out where
  | ok (reqs : List (String × Int)) (value : JsVal)
  | errored (reqs : List (String × Int))
  | thrown

/-- Embeds the rewrite's `getBitcoinTransactions(coin, addresses, data,
offset)`.  The recursive call `getBitcoinTransactions(addresses, data,
txProcessed)` shifts every argument left and leaves `offset = 0`. -/
def getBitcoinTransactionsV1 (src : String → Int → BtcPage) :
    Nat → JsVal → JsVal → JsVal → Int → Option V1Out
  | 0, _, _, _, _ => none
  | fuel + 1, coin, addresses, data, offset =>
    match jsJoin addresses with
    | none => some .thrown
    | some active =>
      let page := src active offset
      match page.txs with
      | none => some (.errored [(active, offset)])
      | some txs =>
        match v1PageLoop coin txs data with
        | none => some (.errored [(active, offset)])
        | some data' =>
          let txProcessed := offset + (txs.length : Int)
          if txProcessed < page.n_tx then
            match getBitcoinTransactionsV1 src fuel addresses data' (.numV txProcessed) 0 with
            | none => none
            | some .thrown => some (.errored [(active, offset)])
            | some (.ok reqs v) => some (.ok ((active, offset) :: reqs) v)
            | some (.errored reqs) => some (.errored ((active, offset) :: reqs))
          else
            some (.ok [(active, offset)] data')

/-!
Concrete scenarios used by individual claims.
-/

/-- A blockchain.info page of `k` identical positive transfers, reporting
`n` total wallet transactions. -/
def btcSamplePage (k : Nat) (n : Int) : BtcPage :=
  { txs := some (List.replicate k
      { result := 1, out := [{ addr := "a" }], time := 1500000000, hash := "h" })
    n_tx := n }

/-- A simulated blockchain.info source reporting `n_tx = 250` in pages of
100, 100 and 50. -/
def src250 : String → Int → BtcPage := fun _ offset =>
  if offset = 0 then btcSamplePage 100 250
  else if offset = 100 then btcSamplePage 100 250
  else if offset = 200 then btcSamplePage 50 250
  else { txs := some [], n_tx := 0 }

/-- A simulated blockchain.info source with 150 transfers in pages of 100
and 50; any other request gets an empty wallet. -/
def srcC10 : String → Int → BtcPage := fun active offset =>
  if active = "a" ∧ offset = 0 then btcSamplePage 100 150
  else if active = "a" ∧ offset = 100 then btcSamplePage 50 150
  else { txs := some [], n_tx := 0 }

/-- First blockcypher page of the cursor counterexample: two unspent
references whose block heights come in descending order 9, 5, with more
data flagged. -/
def ltcPage1 : LtcPage :=
  { txrefs := some
      [{ spent := false, value := 3, confirmed := "2018-01-01T00:00:00Z"
         tx_hash := "t1", block_height := 9 },
       { spent := false, value := 4, confirmed := "2018-01-02T00:00:00Z"
         tx_hash := "t2", block_height := 5 }]
    hasMore := true }

/-- Cursor-pagination source: the uncursored request returns `ltcPage1`;
`before = 5` returns a final empty page; any other request returns a
poison page so the trace pins down the cursor actually used. -/
def srcLtcCx : Option Int → LtcPage := fun r =>
  if r = none then ltcPage1
  else if r = some 5 then { txrefs := some [], hasMore := false }
  else { txrefs := none, hasMore := true }

/-- A blockcypher source whose response carries no `txrefs` array at all. -/
def srcLtcAbsent : Option Int → LtcPage := fun _ =>
  { txrefs := none, hasMore := false }

/-- A raw transfer of 1 BTC received on a date whose price lookup will
succeed. -/
def c1t1 : Transaction :=
  { coin := Bitcoin, address := "a", realAmount := 100000000
    timestamp := "1514764800", date := "2018-01-01", hash := "h1" }

/-- A raw transfer of 2 BTC received on a date whose price lookup will
fail. -/
def c1t2 : Transaction :=
  { coin := Bitcoin, address := "a", realAmount := 200000000
    timestamp := "1514851200", date := "2018-01-02", hash := "h2" }

/-- An oracle with a quote of 10 for 2018-01-01 only; every other date is
`PriceUnavailable`. -/
def oracleC1 : PriceOracle := fun date _ _ =>
  if date = some "2018-01-01" then some 10 else none

/-- The result record the pipeline builds for the group `[c1t1, c1t2]`
under `oracleC1` with current price 5. -/
def c1result : TaxResult :=
  Bitcoin.buildResult ([c1t1, c1t2].map fun t => t.getPrice oracleC1 "USD") "USD"
    (jsOfPrice (some 5))

/-- A raw transfer of 150000000 base units of Bitcoin (factor `1e8`), the
conversion example of the specification. -/
def tx150 : Transaction :=
  { coin := Bitcoin, address := "a", realAmount := 150000000
    timestamp := "1514764800", date := "2018-01-01", hash := "h" }

/-- A blockchain.info source with an empty wallet. -/
def srcEmptyBtc : String → Int → BtcPage := fun _ _ =>
  { txs := some [], n_tx := 0 }

/-- A blockcypher source with an empty (but present) `txrefs` array. -/
def srcEmptyLtc : Option Int → LtcPage := fun _ =>
  { txrefs := some [], hasMore := false }

/-!
Helper lemmas.
-/

theorem jsAdd_nan_left (b : JSNum) : JSNum.add .nan b = .nan := by
  cases b <;> rfl

theorem jsAdd_nan_right (a : JSNum) : JSNum.add a .nan = .nan := by
  cases a <;> rfl

theorem jsFoldlAdd_nan (l : List JSNum) : l.foldl JSNum.add .nan = .nan := by
  induction l with
  | nil => rfl
  | cons a l ih => rw [List.foldl_cons, jsAdd_nan_left, ih]

theorem jsFoldlAdd_of_nan_mem (l : List JSNum) (acc : JSNum) (h : JSNum.nan ∈ l) :
    l.foldl JSNum.add acc = .nan := by
  induction l generalizing acc with
  | nil => simp at h
  | cons a l ih =>
    rcases List.mem_cons.mp h with h1 | h2
    · rw [List.foldl_cons, ← h1, jsAdd_nan_right, jsFoldlAdd_nan]
    · rw [List.foldl_cons]; exact ih _ h2

theorem promiseAll_rejected_of_mem {α : Type} (l : List (Promised α))
    (h : Promised.rejected ∈ l) : promiseAll l = .rejected := by
  induction l with
  | nil => simp at h
  | cons p l ih =>
    cases p with
    | rejected => rfl
    | resolved a =>
      rcases List.mem_cons.mp h with h1 | h2
      · exact absurd h1.symm (by simp)
      · rw [promiseAll, ih h2]

theorem promiseAll_resolved {α : Type} (l : List (Promised α))
    (h : ∀ p ∈ l, p ≠ Promised.rejected) :
    ∃ vs, promiseAll l = .resolved vs ∧ vs.length = l.length := by
  induction l with
  | nil => exact ⟨[], rfl, rfl⟩
  | cons p l ih =>
    cases p with
    | rejected => exact absurd rfl (h _ (List.mem_cons_self _ _))
    | resolved a =>
      obtain ⟨vs, hvs, hlen⟩ := ih fun q hq => h q (List.mem_cons_of_mem _ hq)
      exact ⟨a :: vs, by rw [promiseAll, hvs], by simp [hlen]⟩

theorem buildResultLoop_amount (cp : JSNum) (txns : List Transaction) (r : TaxResult) :
    (buildResultLoop cp txns r).amount = (txns.map (·.amount)).foldl JSNum.add r.amount := by
  induction txns generalizing r with
  | nil => rfl
  | cons t l ih => rw [buildResultLoop, ih]; rfl

theorem buildResultLoop_vwr (cp : JSNum) (txns : List Transaction) (r : TaxResult) :
    (buildResultLoop cp txns r).valueWhenReceived =
      (txns.map (·.valueWhenReceived)).foldl JSNum.add r.valueWhenReceived := by
  induction txns generalizing r with
  | nil => rfl
  | cons t l ih => rw [buildResultLoop, ih]; rfl

theorem buildResultLoop_value (cp : JSNum) (txns : List Transaction) (r : TaxResult) :
    (buildResultLoop cp txns r).value =
      (txns.map fun t => cp.mul t.amount).foldl JSNum.add r.value := by
  induction txns generalizing r with
  | nil => rfl
  | cons t l ih => rw [buildResultLoop, ih]; rfl

theorem buildResultLoop_txns (cp : JSNum) (txns : List Transaction) (r : TaxResult) :
    (buildResultLoop cp txns r).txns =
      r.txns ++ txns.map fun t => { t with value := cp.mul t.amount } := by
  induction txns generalizing r with
  | nil => simp [buildResultLoop]
  | cons t l ih => rw [buildResultLoop, ih]; simp

theorem buildResult_amount (c : Coin) (txns : List Transaction) (currency : String)
    (cp : JSNum) : (c.buildResult txns currency cp).amount = jsSum (txns.map (·.amount)) :=
  buildResultLoop_amount cp txns _

theorem buildResult_vwr (c : Coin) (txns : List Transaction) (currency : String)
    (cp : JSNum) : (c.buildResult txns currency cp).valueWhenReceived =
      jsSum (txns.map (·.valueWhenReceived)) :=
  buildResultLoop_vwr cp txns _

theorem buildResult_value (c : Coin) (txns : List Transaction) (currency : String)
    (cp : JSNum) : (c.buildResult txns currency cp).value =
      jsSum (txns.map fun t => cp.mul t.amount) :=
  buildResultLoop_value cp txns _

theorem buildResult_txns (c : Coin) (txns : List Transaction) (currency : String)
    (cp : JSNum) : (c.buildResult txns currency cp).txns =
      txns.map fun t => { t with value := cp.mul t.amount } := by
  rw [Coin.buildResult, buildResultLoop_txns]; rfl

theorem btcPageLoop_mem (c : Coin) (l : List BtcTx) (data out : List Transaction)
    (h : btcPageLoop c l data = some out) :
    ∀ t ∈ out, t ∈ data ∨ 0 < t.realAmount := by
  induction l generalizing data with
  | nil =>
    simp only [btcPageLoop, Option.some.injEq] at h
    exact fun t ht => Or.inl (h ▸ ht)
  | cons b rest ih =>
    intro t ht
    rw [btcPageLoop] at h
    by_cases hb : 0 < b.result
    · rw [if_pos hb] at h
      cases hout : b.out with
      | nil => rw [hout] at h; exact absurd h (by simp)
      | cons o os =>
        rw [hout] at h
        rcases ih _ h t ht with hmem | hpos
        · rcases List.mem_append.mp hmem with h1 | h2
          · exact Or.inl h1
          · have : t = btcTxOf c b o := by simpa using h2
            exact Or.inr (by rw [this]; exact hb)
        · exact Or.inr hpos
    · rw [if_neg hb] at h
      exact ih _ h t ht

theorem ethPageLoop_eq (c : Coin) (address : String) (l : List EthTx)
    (data : List Transaction) :
    ethPageLoop c address l data =
      data ++ (l.filter fun e => e.toAddr = address).map (ethTxOf c address) := by
  induction l generalizing data with
  | nil => simp [ethPageLoop]
  | cons e rest ih =>
    rw [ethPageLoop]
    by_cases he : e.toAddr = address
    · rw [if_pos he, ih]
      simp [List.filter_cons, he]
    · rw [if_neg he, ih]
      simp [List.filter_cons, he]

theorem ltcPageLoop_eq (c : Coin) (address : String) (refs : List LtcTxRef)
    (data : List Transaction) (lb : Int) :
    ltcPageLoop c address refs data lb =
      (data ++ ((refs.filter fun r => r.spent = false).map (ltcTxOf c address)),
       (refs.map (·.block_height)).getLastD lb) := by
  induction refs generalizing data lb with
  | nil => simp [ltcPageLoop]
  | cons r rest ih =>
    by_cases hs : r.spent = false
    · simp only [ltcPageLoop, if_pos hs, ih]
      rw [List.map_cons, List.getLastD_cons]
      simp [List.filter_cons, hs]
    · simp only [ltcPageLoop, if_neg hs, ih]
      rw [List.map_cons, List.getLastD_cons]
      simp [List.filter_cons, hs]

/-- Length of the `txs` array of the page a request returns (empty when
there is no array). -/
def btcPageLen (src : String → Int → BtcPage) (r : String × Int) : Nat :=
  (((src r.1 r.2).txs).getD []).length

/-- The paging step of `Bitcoin._getTransactions`: the next request keeps
the address set and advances the offset by the page's item count. -/
def btcAdvance (src : String → Int → BtcPage) (a b : String × Int) : Prop :=
  b.1 = a.1 ∧ b.2 = a.2 + (btcPageLen src a : Int)

/-- The continuation test `json.wallet.n_tx > txProcessed` of a request. -/
def btcContinues (src : String → Int → BtcPage) (r : String × Int) : Prop :=
  r.2 + (btcPageLen src r : Int) < (src r.1 r.2).n_tx

/-- The negation of the continuation test: all items retrieved. -/
def btcStops (src : String → Int → BtcPage) (r : String × Int) : Prop :=
  (src r.1 r.2).n_tx ≤ r.2 + (btcPageLen src r : Int)

theorem btc_ok_spec (src : String → Int → BtcPage) (c : Coin) (addrs : List String)
    (fuel : Nat) :
    ∀ (data : List Transaction) (offset : Int) (reqs : List (String × Int))
      (out : List Transaction),
      btcGetTransactions src c fuel addrs data offset = some (.ok reqs out) →
      reqs.head? = some (String.intercalate "|" addrs, offset) ∧
      reqs.Chain' (btcAdvance src) ∧
      (∀ r ∈ reqs.dropLast, btcContinues src r) ∧
      (∀ r ∈ reqs.getLast?, btcStops src r) ∧
      (∀ t ∈ out, t ∈ data ∨ 0 < t.realAmount) := by
  induction fuel with
  | zero => intro data offset reqs out h; simp [btcGetTransactions] at h
  | succ fuel ih =>
    intro data offset reqs out h
    simp only [btcGetTransactions] at h
    cases htxs : (src (String.intercalate "|" addrs) offset).txs with
    | none => simp [htxs] at h
    | some txs =>
      simp only [htxs] at h
      cases hloop : btcPageLoop c txs data with
      | none => simp [hloop] at h
      | some data' =>
        simp only [hloop] at h
        by_cases hlt : offset + (txs.length : Int) < (src (String.intercalate "|" addrs) offset).n_tx
        · rw [if_pos hlt] at h
          cases hrec : btcGetTransactions src c fuel addrs data' (offset + (txs.length : Int)) with
          | none => simp [hrec] at h
          | some v =>
            simp only [hrec] at h
            cases v with
            | errored reqs0 => exact absurd h (by simp)
            | ok reqs' out' =>
              simp only [Option.some.injEq, FetchResult.ok.injEq] at h
              obtain ⟨hreqs, hout⟩ := h
              obtain ⟨ihead, ichain, icont, ilast, imem⟩ := ih data' _ reqs' out' hrec
              have hlen : btcPageLen src (String.intercalate "|" addrs, offset) = txs.length := by
                simp [btcPageLen, htxs]
              subst hreqs hout
              refine ⟨rfl, ?_, ?_, ?_, ?_⟩
              · rw [List.chain'_cons']
                refine ⟨fun b hb => ?_, ichain⟩
                rw [ihead] at hb
                simp only [Option.mem_def, Option.some.injEq] at hb
                subst hb
                exact ⟨rfl, by rw [hlen]⟩
              · cases reqs' with
                | nil => simp at ihead
                | cons hd tl =>
                  intro r hr
                  rw [List.dropLast_cons₂] at hr
                  rcases List.mem_cons.mp hr with h1 | h2
                  · subst h1
                    show btcContinues src (String.intercalate "|" addrs, offset)
                    unfold btcContinues
                    rw [hlen]
                    exact hlt
                  · exact icont r h2
              · intro r hr
                cases reqs' with
                | nil => simp at ihead
                | cons hd tl =>
                  rw [List.getLast?_cons_cons] at hr
                  exact ilast r hr
              · intro t ht
                rcases imem t ht with hmem | hpos
                · exact btcPageLoop_mem c txs data data' hloop t hmem
                · exact Or.inr hpos
        · rw [if_neg hlt] at h
          simp only [Option.some.injEq, FetchResult.ok.injEq] at h
          obtain ⟨hreqs, hout⟩ := h
          subst hreqs hout
          have hlen : btcPageLen src (String.intercalate "|" addrs, offset) = txs.length := by
            simp [btcPageLen, htxs]
          refine ⟨rfl, List.chain'_singleton _, by simp, ?_, ?_⟩
          · intro r hr
            simp only [List.getLast?_singleton, Option.mem_def, Option.some.injEq] at hr
            subst hr
            show btcStops src (String.intercalate "|" addrs, offset)
            unfold btcStops
            rw [hlen]
            exact le_of_not_lt hlt
          · exact btcPageLoop_mem c txs data _ hloop

/-- The request a given `offset` produces: the `before` cursor parameter
is present iff the offset is positive. -/
def ltcReq (offset : Int) : Option Int :=
  if 0 < offset then some offset else none

/-- The `lastBlock` value a page leaves behind: the block height of the
last entry of its `txrefs` array, or `-1` if the array is empty or
absent. -/
def ltcCursorOf (src : Option Int → LtcPage) (r : Option Int) : Int :=
  ((((src r).txrefs).getD []).map (·.block_height)).getLastD (-1)

/-- The paging step of `Litecoin._getTransactions`: the next request's
cursor comes from the previous page's final `lastBlock`. -/
def ltcAdvance (src : Option Int → LtcPage) (a b : Option Int) : Prop :=
  b = ltcReq (ltcCursorOf src a)

theorem ltc_ok_spec (src : Option Int → LtcPage) (c : Coin) (address : String)
    (fuel : Nat) :
    ∀ (data : List Transaction) (offset : Int) (reqs : List (Option Int))
      (out : List Transaction),
      ltcGetTransactions src c address fuel data offset = some (.ok reqs out) →
      reqs.head? = some (ltcReq offset) ∧
      reqs.Chain' (ltcAdvance src) ∧
      (∀ r ∈ reqs.dropLast, (src r).hasMore = true) ∧
      (∀ r ∈ reqs.getLast?, (src r).hasMore = false) ∧
      (∀ t ∈ out, t ∈ data ∨ ∃ ref, ref.spent = false ∧ t = ltcTxOf c address ref) := by
  induction fuel with
  | zero => intro data offset reqs out h; simp [ltcGetTransactions] at h
  | succ fuel ih =>
    intro data offset reqs out h
    simp only [ltcGetTransactions, ltcPageLoop_eq] at h
    have hfold : (if 0 < offset then some offset else none) = ltcReq offset := rfl
    rw [hfold] at h
    cases htr : (src (ltcReq offset)).txrefs with
    | none => simp [htr] at h
    | some refs =>
      simp only [htr] at h
      have hcur : ((List.map (fun x => x.block_height) refs).getLastD (-1)) =
          ltcCursorOf src (ltcReq offset) := by
        simp [ltcCursorOf, htr]
      by_cases hmore : (src (ltcReq offset)).hasMore
      · rw [if_pos hmore] at h
        cases hrec : ltcGetTransactions src c address fuel
            (data ++ List.map (ltcTxOf c address)
              (List.filter (fun r => decide (r.spent = false)) refs))
            ((List.map (fun x => x.block_height) refs).getLastD (-1)) with
        | none => rw [hrec] at h; simp at h
        | some v =>
          rw [hrec] at h
          cases v with
          | errored reqs0 => exact absurd h (by simp)
          | ok reqs' out' =>
            simp only [Option.some.injEq, FetchResult.ok.injEq] at h
            obtain ⟨hreqs, hout⟩ := h
            obtain ⟨ihead, ichain, imore, ilast, imem⟩ := ih _ _ reqs' out' hrec
            subst hreqs hout
            refine ⟨rfl, ?_, ?_, ?_, ?_⟩
            · rw [List.chain'_cons']
              refine ⟨fun b hb => ?_, ichain⟩
              rw [ihead] at hb
              simp only [Option.mem_def, Option.some.injEq] at hb
              subst hb
              show ltcReq ((List.map (fun x => x.block_height) refs).getLastD (-1)) =
                ltcReq (ltcCursorOf src (ltcReq offset))
              rw [hcur]
            · cases reqs' with
              | nil => simp at ihead
              | cons hd tl =>
                intro r hr
                rw [List.dropLast_cons₂] at hr
                rcases List.mem_cons.mp hr with h1 | h2
                · subst h1; exact hmore
                · exact imore r h2
            · intro r hr
              cases reqs' with
              | nil => simp at ihead
              | cons hd tl =>
                rw [List.getLast?_cons_cons] at hr
                exact ilast r hr
            · intro t ht
              rcases imem t ht with hmem | hp
              · rcases List.mem_append.mp hmem with h1 | h2
                · exact Or.inl h1
                · obtain ⟨ref, href, hrefeq⟩ := List.mem_map.mp h2
                  exact Or.inr ⟨ref, by simpa using (List.mem_filter.mp href).2, hrefeq.symm⟩
              · exact Or.inr hp
      · rw [if_neg hmore] at h
        simp only [Option.some.injEq, FetchResult.ok.injEq] at h
        obtain ⟨hreqs, hout⟩ := h
        subst hreqs hout
        refine ⟨rfl, List.chain'_singleton _, by simp, ?_, ?_⟩
        · intro r hr
          simp only [List.getLast?_singleton, Option.mem_def, Option.some.injEq] at hr
          subst hr
          exact Bool.eq_false_iff.mpr hmore
        · intro t ht
          rcases List.mem_append.mp ht with h1 | h2
          · exact Or.inl h1
          · obtain ⟨ref, href, hrefeq⟩ := List.mem_map.mp h2
            exact Or.inr ⟨ref, by simpa using (List.mem_filter.mp href).2, hrefeq.symm⟩

/-!
Claim theorems.
-/

/-- Claim C5: the single-page fetcher issues exactly one request regardless
of result size, and its output is exactly the response entries whose `to`
field equals the queried address. -/
theorem claim5_single_page :
    (∀ (src : EthResp) (c : Coin) (address : String),
      (ethGetTransactions src c address).requests.length = 1) ∧
    (∀ (c : Coin) (address : String) (entries : List EthTx),
      ethGetTransactions { result := some entries } c address =
        .ok [()] ((entries.filter fun e => e.toAddr = address).map (ethTxOf c address))) := by
  constructor
  · intro src c address
    cases hsrc : src.result <;> simp [ethGetTransactions, hsrc, FetchResult.requests]
  · intro c address entries
    show FetchResult.ok [()] (ethPageLoop c address entries []) = _
    rw [ethPageLoop_eq]
    simp

/-- Claim C6: for a transfer with positive raw amount, the converted amount
is exactly the raw amount divided by the coin factor, and value-when-received
is the converted amount times the unit price; with factor `1e8` a raw amount
of 150000000 converts to exactly `3/2`. -/
theorem claim6_conversion :
    (∀ (t : Transaction) (p : ℚ), 0 < t.realAmount →
      (t.addPriceData (.num p)).amount = .num (t.realAmount / t.coin.factor) ∧
      (t.addPriceData (.num p)).valueWhenReceived =
        .num ((t.realAmount / t.coin.factor) * p)) ∧
    (tx150.addPriceData (.num 4)).amount = .num (3 / 2) ∧
    (tx150.addPriceData (.num 4)).valueWhenReceived = .num 6 := by
  refine ⟨fun t p hp => ⟨rfl, ?_⟩, ?_, ?_⟩
  · show JSNum.num (p * (t.realAmount / t.coin.factor)) =
      .num ((t.realAmount / t.coin.factor) * p)
    rw [mul_comm]
  · show JSNum.num ((150000000 : ℚ) / 100000000) = JSNum.num (3 / 2)
    exact congrArg JSNum.num (by norm_num)
  · show JSNum.num ((4 : ℚ) * (150000000 / 100000000)) = JSNum.num 6
    exact congrArg JSNum.num (by norm_num)

/-- Witness for C6 at the specification's own example. -/
theorem claim6_witness :
    (tx150.addPriceData (.num 4)).amount = .num (tx150.realAmount / tx150.coin.factor) :=
  (claim6_conversion.1 tx150 4 (by decide)).1

/-- Claim C7: the three totals of a result record are the sums of the
corresponding per-transaction fields, and rebuilding the record from its
own transaction list (same current price) reproduces the same totals. -/
theorem claim7_totals_idempotent (c : Coin) (txns : List Transaction) (currency : String)
    (cp : JSNum) :
    (c.buildResult txns currency cp).amount = jsSum (txns.map (·.amount)) ∧
    (c.buildResult txns currency cp).valueWhenReceived =
      jsSum ((c.buildResult txns currency cp).txns.map (·.valueWhenReceived)) ∧
    (c.buildResult txns currency cp).value =
      jsSum ((c.buildResult txns currency cp).txns.map (·.value)) ∧
    (c.buildResult ((c.buildResult txns currency cp).txns) currency cp).amount =
      (c.buildResult txns currency cp).amount ∧
    (c.buildResult ((c.buildResult txns currency cp).txns) currency cp).value =
      (c.buildResult txns currency cp).value ∧
    (c.buildResult ((c.buildResult txns currency cp).txns) currency cp).valueWhenReceived =
      (c.buildResult txns currency cp).valueWhenReceived := by
  refine ⟨buildResult_amount c txns currency cp, ?_, ?_, ?_, ?_, ?_⟩
  · rw [buildResult_vwr, buildResult_txns, List.map_map]
    rfl
  · rw [buildResult_value, buildResult_txns, List.map_map]
    rfl
  · rw [buildResult_amount, buildResult_amount, buildResult_txns, List.map_map]
    rfl
  · rw [buildResult_value, buildResult_value, buildResult_txns, List.map_map]
    rfl
  · rw [buildResult_vwr, buildResult_vwr, buildResult_txns, List.map_map]
    rfl

/-- Counterexample to claim C9 as stated: `_buildResult` mutates each
transaction of the list it is given, assigning its `value` field, so a
valued transaction is not immutable after pricing. -/
theorem claim9_counterexample :
    (c1t1.addPriceData (.num 10)).value = JSNum.undefined ∧
    ((Bitcoin.buildResult [c1t1.addPriceData (.num 10)] "USD" (.num 5)).txns.head?).map
        (·.value) ≠ some JSNum.undefined ∧
    (Bitcoin.buildResult [c1t1.addPriceData (.num 10)] "USD" (.num 5)).txns ≠
      [c1t1.addPriceData (.num 10)] := by
  refine ⟨rfl, by decide, fun h => ?_⟩
  have h2 : ((Bitcoin.buildResult [c1t1.addPriceData (.num 10)] "USD" (.num 5)).txns.head?).map
      (·.value) ≠ some JSNum.undefined := by decide
  exact h2 (by rw [h]; rfl)

/-- Claim C9 amended: `_buildResult` writes only the `value` field of each
transaction (the current value `coin.price * amount`); every field set at
construction or pricing time — coin, address, raw amount, timestamp, date,
hash, price, converted amount, value-when-received — is preserved. -/
theorem claim9_amended (c : Coin) (txns : List Transaction) (currency : String)
    (cp : JSNum) :
    List.Forall₂ (fun t t' =>
      t'.coin = t.coin ∧ t'.address = t.address ∧ t'.realAmount = t.realAmount ∧
      t'.timestamp = t.timestamp ∧ t'.date = t.date ∧ t'.hash = t.hash ∧
      t'.price = t.price ∧ t'.amount = t.amount ∧
      t'.valueWhenReceived = t.valueWhenReceived ∧ t'.value = cp.mul t.amount)
      txns (c.buildResult txns currency cp).txns := by
  rw [buildResult_txns]
  induction txns with
  | nil => exact List.Forall₂.nil
  | cons t l ih =>
    exact List.Forall₂.cons ⟨rfl, rfl, rfl, rfl, rfl, rfl, rfl, rfl, rfl, rfl⟩ ih

/-- Counterexample to claim C1 as stated: in the group `[c1t1, c1t2]` the
transfer whose price lookup fails stays in the transaction list (length 2,
its price `undefined`), and the value-when-received total is `NaN` instead
of the successful transfer's 10. -/
theorem claim1_counterexample :
    ((Bitcoin.getTaxableEvents oracleC1 (some [c1t1, c1t2]) "USD" (some 5)).get?).map
        (fun r => (r.txns.length, r.valueWhenReceived, r.txns.map (·.price))) =
      some (2, JSNum.nan, [JSNum.num 10, JSNum.undefined]) ∧
    c1result.amount = JSNum.num 3 ∧
    c1result.value = JSNum.num 15 ∧
    JSNum.nan ≠ JSNum.num 10 := by
  refine ⟨by decide, ?_, ?_, by decide⟩
  · show JSNum.num ((0 : ℚ) + 100000000 / 100000000 + 200000000 / 100000000) =
      JSNum.num 3
    exact congrArg JSNum.num (by norm_num)
  · show JSNum.num ((0 : ℚ) + 5 * (100000000 / 100000000) + 5 * (200000000 / 100000000)) =
      JSNum.num 15
    exact congrArg JSNum.num (by norm_num)

/-- Claim C1 amended: a transfer whose price lookup fails is kept in the
result's transaction list (the list keeps the group's full length) with an
`undefined` price and `NaN` value-when-received, and it poisons the
value-when-received total to `NaN`; nothing is excluded. -/
theorem claim1_amended (c : Coin) (oracle : PriceOracle) (txns : List Transaction)
    (currency : String) (cp : Option ℚ) (r : TaxResult)
    (h : c.getTaxableEvents oracle (some txns) currency cp = .resolved r) :
    r.txns.length = txns.length ∧
    List.Forall₂ (fun t t' =>
      t'.hash = t.hash ∧
      t'.price = jsOfPrice (oracle (some t.date) t.coin.code currency) ∧
      (oracle (some t.date) t.coin.code currency = none →
        t'.price = .undefined ∧ t'.valueWhenReceived = .nan)) txns r.txns ∧
    ((∃ t ∈ txns, oracle (some t.date) t.coin.code currency = none) →
      r.valueWhenReceived = .nan) := by
  have hr : r = c.buildResult (txns.map fun t => t.getPrice oracle currency) currency
      (jsOfPrice cp) := by
    have h2 := h
    simp only [Coin.getTaxableEvents, Promised.resolved.injEq] at h2
    exact h2.symm
  subst hr
  refine ⟨?_, ?_, ?_⟩
  · rw [buildResult_txns]
    simp
  · rw [buildResult_txns, List.map_map]
    clear h
    induction txns with
    | nil => exact List.Forall₂.nil
    | cons t l ih =>
      refine List.Forall₂.cons ⟨rfl, rfl, fun hnone => ⟨?_, ?_⟩⟩ ih
      · show jsOfPrice (oracle (some t.date) t.coin.code currency) = .undefined
        rw [hnone]
        rfl
      · show JSNum.mul (jsOfPrice (oracle (some t.date) t.coin.code currency)) _ = .nan
        rw [hnone]
        rfl
  · rintro ⟨t, htmem, hnone⟩
    rw [buildResult_vwr]
    apply jsFoldlAdd_of_nan_mem
    refine List.mem_map.mpr ⟨t.getPrice oracle currency, List.mem_map.mpr ⟨t, htmem, rfl⟩, ?_⟩
    show JSNum.mul (jsOfPrice (oracle (some t.date) t.coin.code currency)) _ = .nan
    rw [hnone]
    rfl

/-- Witness for C1 amended: the concrete group with one failed lookup has a
`NaN` value-when-received total. -/
theorem claim1_witness : c1result.valueWhenReceived = .nan :=
  (claim1_amended Bitcoin oracleC1 [c1t1, c1t2] "USD" (some 5) c1result rfl).2.2
    ⟨c1t2, by simp, rfl⟩

/-- Counterexample to claim C2 as stated: with group A's fetch failed and
group B's fetch fine, `run` delivers nothing at all — B's record is not in
the output — although B alone would have produced a record. -/
theorem claim2_counterexample :
    run oracleC1 "USD"
        [{ coin := Bitcoin, fetched := none, currentPrice := some 5 },
         { coin := Bitcoin, fetched := some [c1t1], currentPrice := some 5 }] = none ∧
    (run oracleC1 "USD"
        [{ coin := Bitcoin, fetched := some [c1t1], currentPrice := some 5 }]).isSome = true := by
  exact ⟨rfl, rfl⟩

/-- Claim C2 amended: a `FetchFailure` in any group makes that group's
promise reject (`txns.map` on `undefined` throws), `Promise.all` rejects,
and the final `.catch` swallows the whole batch: `run` terminates but
delivers no records at all, dropping sibling groups too.  When every
group's fetch succeeds, `run` delivers one record per group. -/
theorem claim2_amended (oracle : PriceOracle) (currency : String)
    (groups : List AddressGroup) :
    ((∃ g ∈ groups, g.fetched = none) → run oracle currency groups = none) ∧
    ((∀ g ∈ groups, g.fetched ≠ none) →
      ∃ rs, run oracle currency groups = some rs ∧ rs.length = groups.length) := by
  constructor
  · rintro ⟨g, hg, hfetch⟩
    have hmem : Promised.rejected ∈ groups.map (fun g =>
        g.coin.getTaxableEvents oracle g.fetched currency g.currentPrice) := by
      refine List.mem_map.mpr ⟨g, hg, ?_⟩
      rw [hfetch]
      rfl
    rw [run, promiseAll_rejected_of_mem _ hmem]
  · intro hall
    have hnr : ∀ p ∈ groups.map (fun g =>
        g.coin.getTaxableEvents oracle g.fetched currency g.currentPrice),
        p ≠ Promised.rejected := by
      intro p hp
      obtain ⟨g, hg, hpg⟩ := List.mem_map.mp hp
      subst hpg
      cases hf : g.fetched with
      | none => exact absurd hf (hall g hg)
      | some txns => simp [Coin.getTaxableEvents, hf]
    obtain ⟨vs, hvs, hlen⟩ := promiseAll_resolved _ hnr
    exact ⟨vs, by rw [run, hvs], by rw [hlen, List.length_map]⟩

/-- Witness for C2 amended at a concrete failed group. -/
theorem claim2_witness :
    run oracleC1 "USD" [{ coin := Bitcoin, fetched := none, currentPrice := some 5 }] = none :=
  (claim2_amended oracleC1 "USD"
      [{ coin := Bitcoin, fetched := none, currentPrice := some 5 }]).1
    ⟨{ coin := Bitcoin, fetched := none, currentPrice := some 5 }, by simp, rfl⟩

set_option maxRecDepth 40000 in
/-- Claim C3: the offset-paginated fetcher advances the offset by the
number of items received per page (`btcAdvance`), continues exactly while
the running retrieved total is below the reported total and stops as soon
as it is not, keeps only strictly positive `result` entries, and on the
simulated 250-transaction source issues exactly the three requests at
offsets 0, 100, 200 returning 250 items. -/
theorem claim3_offset_pagination :
    (∀ (src : String → Int → BtcPage) (c : Coin) (fuel : Nat) (addrs : List String)
      (data : List Transaction) (offset : Int) (reqs : List (String × Int))
      (out : List Transaction),
      btcGetTransactions src c fuel addrs data offset = some (.ok reqs out) →
      reqs.Chain' (btcAdvance src) ∧
      (∀ r ∈ reqs.dropLast, btcContinues src r) ∧
      (∀ r ∈ reqs.getLast?, btcStops src r) ∧
      (∀ t ∈ out, t ∈ data ∨ 0 < t.realAmount)) ∧
    (btcGetTransactions src250 Bitcoin 10 ["a"] [] 0).map FetchResult.requests =
      some [("a", 0), ("a", 100), ("a", 200)] ∧
    (btcGetTransactions src250 Bitcoin 10 ["a"] [] 0).map (fun r => r.txnsOf.length) =
      some 250 := by
  refine ⟨fun src c fuel addrs data offset reqs out h => ?_, rfl, rfl⟩
  obtain ⟨_, h2, h3, h4, h5⟩ := btc_ok_spec src c addrs fuel data offset reqs out h
  exact ⟨h2, h3, h4, h5⟩

/-- Witness for C3 at a one-page source. -/
theorem claim3_witness : List.Chain' (btcAdvance srcEmptyBtc) [("a", 0)] :=
  (claim3_offset_pagination.1 srcEmptyBtc Bitcoin 1 ["a"] [] 0 [("a", 0)] [] rfl).1

/-- Counterexample to claim C4 as stated: on a page whose block heights
are 9 then 5 (maximum 9), the continuation cursor used for the second
request is 5 — the block height of the page's last entry, not its
maximum. -/
theorem claim4_counterexample :
    (ltcGetTransactions srcLtcCx Litecoin "addr" 5 [] 0).map FetchResult.requests =
      some [none, some 5] ∧
    ((((srcLtcCx none).txrefs).getD []).map (·.block_height)).max? = some 9 ∧
    (some (5 : Int) ≠ some (9 : Int)) := by
  exact ⟨rfl, rfl, by decide⟩

/-- Claim C4 amended: the cursor-paginated fetcher keeps only unspent
references, issues the next request with the block height of the previous
page's last `txrefs` entry as the `before` cursor (`ltcAdvance`,
this equals the maximum only when heights are listed in ascending order),
stops exactly when `hasMore` is unset, and on the concrete two-page source
issues exactly 2 requests. -/
theorem claim4_amended :
    (∀ (src : Option Int → LtcPage) (c : Coin) (address : String) (fuel : Nat)
      (data : List Transaction) (offset : Int) (reqs : List (Option Int))
      (out : List Transaction),
      ltcGetTransactions src c address fuel data offset = some (.ok reqs out) →
      reqs.Chain' (ltcAdvance src) ∧
      (∀ r ∈ reqs.dropLast, (src r).hasMore = true) ∧
      (∀ r ∈ reqs.getLast?, (src r).hasMore = false) ∧
      (∀ t ∈ out, t ∈ data ∨ ∃ ref, ref.spent = false ∧ t = ltcTxOf c address ref)) ∧
    (ltcGetTransactions srcLtcCx Litecoin "addr" 5 [] 0).map FetchResult.requests =
      some [none, some 5] ∧
    ltcCursorOf srcLtcCx none = 5 ∧
    (ltcGetTransactions srcLtcCx Litecoin "addr" 5 [] 0).map (fun r => r.txnsOf.length) =
      some 2 := by
  refine ⟨fun src c address fuel data offset reqs out h => ?_, rfl, rfl, rfl⟩
  obtain ⟨_, h2, h3, h4, h5⟩ := ltc_ok_spec src c address fuel data offset reqs out h
  exact ⟨h2, h3, h4, h5⟩

/-- Witness for C4 at a one-page source. -/
theorem claim4_witness : (srcEmptyLtc none).hasMore = false :=
  (claim4_amended.1 srcEmptyLtc Litecoin "a" 1 [] 0 [none] [] rfl).2.2.1 none rfl

/-- Counterexample to claim C8 as stated: a response carrying no `txrefs`
array makes the cursor fetcher resolve to `undefined` (a caught
`TypeError`), not to an empty sequence. -/
theorem claim8_counterexample :
    ltcGetTransactions srcLtcAbsent Litecoin "a" 1 [] 0 = some (.errored [none]) ∧
    some (FetchResult.errored [(none : Option Int)]) ≠
      some (FetchResult.ok [(none : Option Int)] ([] : List Transaction)) := by
  exact ⟨rfl, by decide⟩

/-- Claim C8 amended: a present-but-empty transfer list makes each of the
three fetchers return an empty sequence after one request, but an absent
transfer list is a decode error: the fetcher resolves to `undefined`
(`errored`), not to an empty sequence. -/
theorem claim8_amended :
    (∀ (src : String → Int → BtcPage) (c : Coin) (addrs : List String),
      (src (String.intercalate "|" addrs) 0).txs = some [] →
      (src (String.intercalate "|" addrs) 0).n_tx ≤ 0 →
      btcGetTransactions src c 1 addrs [] 0 =
        some (.ok [(String.intercalate "|" addrs, 0)] [])) ∧
    (∀ (src : Option Int → LtcPage) (c : Coin) (address : String),
      (src none).txrefs = some [] → (src none).hasMore = false →
      ltcGetTransactions src c address 1 [] 0 = some (.ok [none] [])) ∧
    (∀ (c : Coin) (address : String),
      ethGetTransactions { result := some [] } c address = .ok [()] []) ∧
    (∀ (src : Option Int → LtcPage) (c : Coin) (address : String),
      (src none).txrefs = none →
      ltcGetTransactions src c address 1 [] 0 = some (.errored [none])) := by
  refine ⟨?_, ?_, fun c address => rfl, ?_⟩
  · intro src c addrs h1 h2
    have h3 : ¬((0 : Int) + (([] : List BtcTx).length : Int) <
        (src (String.intercalate "|" addrs) 0).n_tx) := by
      simpa using h2
    simp [btcGetTransactions, h1, btcPageLoop, h3]
    exact h2
  · intro src c address h1 h2
    simp [ltcGetTransactions, h1, h2, ltcPageLoop]
  · intro src c address h1
    simp [ltcGetTransactions, h1]

/-- Witness for C8 amended at a concrete empty source. -/
theorem claim8_witness :
    ltcGetTransactions srcEmptyLtc Litecoin "a" 1 [] 0 = some (.ok [none] []) :=
  claim8_amended.2.1 srcEmptyLtc Litecoin "a" rfl rfl

set_option maxRecDepth 8000 in
/-- Claim C10 refuted on the function-table rewrite: on the same 150
transaction two-page source, the class version issues requests at offsets
0 and 100 and returns 150 transactions, while the rewrite — whose
self-recursive call drops the `coin` argument, shifting every argument one
slot left — issues its second request with the accumulated transaction
array joined into the address slot (offset 0) and finally resolves to the
number 100 instead of a transaction list. -/
theorem claim10_divergence :
    (btcGetTransactions srcC10 Bitcoin 10 ["a"] [] 0).map FetchResult.requests =
      some [("a", 0), ("a", 100)] ∧
    (btcGetTransactions srcC10 Bitcoin 10 ["a"] [] 0).map (fun r => r.txnsOf.length) =
      some 150 ∧
    getBitcoinTransactionsV1 srcC10 10 (.coinV Bitcoin) (.strListV ["a"]) (.txListV []) 0 =
      some (.ok [("a", 0),
        (String.intercalate "|" (List.replicate 100 "[object Object]"), 0)] (.numV 100)) ∧
    [("a", 0), (String.intercalate "|" (List.replicate 100 "[object Object]"), 0)] ≠
      [("a", (0 : Int)), ("a", 100)] := by
  refine ⟨rfl, rfl, by rfl, ?_⟩
  intro h
  have h2 := congrArg (fun l => (l.map Prod.snd)) h
  simp at h2

end MiningTaxes
